import Mathlib

/-!
Shallow embedding of `dye_injector.ino` (Arduino firmware for a serial-controlled
dye injector).  The AVR target has 16-bit `int` / `unsigned int` and 32-bit `long`;
`String::toInt` is `atol`.  Arduino `String`s are modelled as `List Char`, float
arithmetic (`float dyeInjected`, `volumePerRevolution`) is modelled exactly over `ℚ`,
and each `Serial.print` is recorded as an output event.
-/

namespace DyeInjector

/-- Characters accepted by `isspace` in the C locale (skipped by `atol`). -/
def isSpaceChar (c : Char) : Bool :=
  c = ' ' ∨ c = '\t' ∨ c = '\n' ∨ c = '\x0b' ∨ c = '\x0c' ∨ c = '\r'

/-- The digit-accumulation loop of `atol`: consume decimal digits from the front,
accumulating `acc * 10 + digit`, and stop at the first non-digit. -/
def digitsVal : List Char → Nat → Nat
  | [], acc => acc
  | c :: rest, acc =>
      if c.isDigit then digitsVal rest (acc * 10 + (c.toNat - 48)) else acc

/-- Model of `atol` as called by Arduino `String::toInt`: skip leading whitespace, read an
optional sign, then read decimal digits; a string with no leading digits yields 0. -/
def toIntLegacy (s : List Char) : Int :=
  let s1 := s.dropWhile isSpaceChar
  match s1 with
  | '-' :: rest => - (digitsVal rest 0 : Int)
  | '+' :: rest => (digitsVal rest 0 : Int)
  | _ => (digitsVal s1 0 : Int)

/-- Cast of a `long` value to the AVR 16-bit signed `int`. -/
def toInt16 (n : Int) : Int :=
  let m := n % 65536
  if m < 32768 then m else m - 65536

/-- Cast of a `long` value to the AVR 16-bit `unsigned int`. -/
def toUInt16 (n : Int) : Nat :=
  (n % 65536).toNat

/-- Arduino `String::indexOf(c)`: position of the first occurrence of `c`, if any
(the source's −1 result is `none`). -/
def indexOfC (c : Char) : List Char → Option Nat
  | [] => none
  | x :: xs => if x = c then some 0 else (indexOfC c xs).map (· + 1)

-- Calibration constants of the device.

def stepsPerRevolution : Nat := 200

def volumePerRevolution : ℚ := (60 / 4.2188) / 40

def maxInjectionStages : Nat := 4

def commandFromComputerMaxLength : Nat := 256

def versionString : String := "0.1"

/-- One stage of an injection command: `steps` is the (16-bit signed) step count
whose sign gives the direction, `speed` the (16-bit unsigned) RPM value. -/
structure Stage where
  steps : Int
  speed : Nat
  deriving DecidableEq, Repr

/-- The stage-reading loop of `processInjectCommand`, lines 314-360: the fuel is the
number of loop iterations still allowed (`MAX_INJECTION_STAGES - numberStages`);
`acc` is the stages written into the arrays so far; `none` is the -1 return. -/
def readStages : Nat → List Char → List Stage → Option (List Stage)
  | 0, _, _ => none
  | fuel + 1, s, acc =>
    match indexOfC ' ' s with
    | none => if s.length = 0 then some acc else none
    | some i =>
      let steps := toInt16 (toIntLegacy (s.take i))
      let s1 := s.drop (i + 1)
      match indexOfC ',' s1 with
      | none => some (acc ++ [⟨steps, toUInt16 (toIntLegacy s1)⟩])
      | some j =>
          readStages fuel (s1.drop (j + 1))
            (acc ++ [⟨steps, toUInt16 (toIntLegacy (s1.take j))⟩])

/-- Check `s.startsWith("Inject: ")` of lines 191 and 304. -/
def startsWithInject (s : List Char) : Bool :=
  s.take 8 = "Inject: ".toList

/-- Model of `processInjectCommand` (lines 299-366): validate the command and extract the stages;
`none` models the -1 (invalid) return, `some stages` a return of `stages.length`. -/
def processInjectCommand (s : List Char) : Option (List Stage) :=
  if startsWithInject s then readStages maxInjectionStages (s.drop 8) []
  else none

/-- Device state: the cumulative injected volume `dyeInjected` (in mL). -/
structure DeviceState where
  dyeInjected : ℚ
  deriving DecidableEq

/-- Direction argument of `Adafruit_StepperMotor::step`. -/
inductive MotorDir
  | forward
  | backward
  deriving DecidableEq, Repr

/-- One call on the motor adapter, in the order issued by the stage loop. -/
inductive MotorEvent
  | setSpeed (rpm : Nat)
  | step (count : Nat) (dir : MotorDir)
  | release
  deriving DecidableEq, Repr

/-- One line printed on the serial port.  Fixed texts are recorded verbatim
(including the trailing newline); floats are printed through `dtostre`, whose
textual formatting is out of scope, so only the printed value is recorded. -/
inductive SerialOut
  | msg (s : String)
  | floatMsg (value : ℚ)
  deriving DecidableEq

/-- The motor calls of one stage (loop body, lines 213-217): set the speed, step
`abs(steps)` positions in the direction given by `steps > 0`, release. -/
def execStage (st : Stage) : List MotorEvent :=
  [MotorEvent.setSpeed st.speed,
   MotorEvent.step st.steps.natAbs (if st.steps > 0 then .forward else .backward),
   MotorEvent.release]

/-- The signed volume contributed by one stage:
`steps * volumePerRevolution / stepsPerRevolution`. -/
def stageVolume (st : Stage) : ℚ :=
  (st.steps : ℚ) * volumePerRevolution / (stepsPerRevolution : ℚ)

/-- The stage-execution loop (lines 211-221): emits the motor calls of each stage
in order and accumulates `dyeInjected`. -/
def execStages (stages : List Stage) (dye : ℚ) : List MotorEvent × ℚ :=
  stages.foldl (fun acc st => (acc.1 ++ execStage st, acc.2 + stageVolume st)) ([], dye)

/-- The command dispatch chain of `loop` (lines 174-225) applied to one completed
command line: returns the serial outputs, the motor calls, and the new state. -/
def dispatchLine (line : List Char) (st : DeviceState) :
    List SerialOut × List MotorEvent × DeviceState :=
  if line = "Status?".toList then ([.msg "OK\n"], [], st)
  else if line = "Program?".toList then ([.msg "Dye Injector\n"], [], st)
  else if line = "Version?".toList then ([.msg (versionString ++ "\n")], [], st)
  else if line = "DyeInjected?".toList then ([.floatMsg st.dyeInjected], [], st)
  else if line = "ResetDyeInjected".toList then ([.msg "ACK\n"], [], ⟨0⟩)
  else if line = "StepsPerRevolution?".toList then
    ([.msg (toString stepsPerRevolution ++ "\n")], [], st)
  else if line = "VolumePerRevolution?".toList then ([.floatMsg volumePerRevolution], [], st)
  else if startsWithInject line then
    match processInjectCommand line with
    | none => ([.msg "Invalid\n"], [], st)
    | some stages =>
        let r := execStages stages st.dyeInjected
        ([.msg "Executing\n"], r.1, ⟨r.2⟩)
  else ([.msg "Invalid\n"], [], st)

/-- Trimming `substring(0, indexOf('\n'))` of line 168: the buffer up to the first newline.
When there is no newline, `indexOf` returns -1, which `substring`'s unsigned
`right` argument clamps to the string length, so the whole buffer is kept. -/
def trimAtNewline (s : List Char) : List Char :=
  match indexOfC '\n' s with
  | some i => s.take i
  | none => s

/-- Processing of one completed command by `loop` (lines 162-234): trim the buffer
at the first newline, dispatch the result, then clear the buffer.  The last
component is the buffer contents afterwards. -/
def processComplete (buf : List Char) (st : DeviceState) :
    List SerialOut × List MotorEvent × DeviceState × List Char :=
  let r := dispatchLine (trimAtNewline buf) st
  (r.1, r.2.1, r.2.2, [])

/-- One received byte handled by `serialEvent` (lines 262-272): append if below
capacity, otherwise shift every character down one slot and put the new byte last. -/
def feedByte (buf : List Char) (c : Char) : List Char :=
  if buf.length < commandFromComputerMaxLength then buf ++ [c]
  else buf.drop 1 ++ [c]

/-- A whole batch of received bytes, one `feedByte` per byte in order. -/
def feedAll (buf : List Char) (bs : List Char) : List Char :=
  bs.foldl feedByte buf

/-- The text of one stage: steps token, space, speed token. -/
def renderStage (p : List Char × List Char) : List Char := p.1 ++ ' ' :: p.2

/-- The text of a comma-separated stage list. -/
def renderStages : List (List Char × List Char) → List Char
  | [] => []
  | [p] => renderStage p
  | p :: ps => renderStage p ++ ',' :: renderStages ps

/-- The stage the parser extracts from one token pair. -/
def stageOfToks (p : List Char × List Char) : Stage :=
  ⟨toInt16 (toIntLegacy p.1), toUInt16 (toIntLegacy p.2)⟩

/-- Well-formed token pair: neither token contains a separator character. -/
def goodTok (p : List Char × List Char) : Prop :=
  ' ' ∉ p.1 ∧ ',' ∉ p.1 ∧ ' ' ∉ p.2 ∧ ',' ∉ p.2

instance (p : List Char × List Char) : Decidable (goodTok p) :=
  show Decidable (' ' ∉ p.1 ∧ ',' ∉ p.1 ∧ ' ' ∉ p.2 ∧ ',' ∉ p.2) from inferInstance

theorem indexOfC_eq_none {c : Char} {s : List Char} (h : c ∉ s) : indexOfC c s = none := by
  induction s with
  | nil => rfl
  | cons x xs ih =>
      simp only [List.mem_cons, not_or] at h
      simp [indexOfC, Ne.symm h.1, ih h.2]

theorem indexOfC_append_cons {c : Char} {t X : List Char} (h : c ∉ t) :
    indexOfC c (t ++ c :: X) = some t.length := by
  induction t with
  | nil => simp [indexOfC]
  | cons x xs ih =>
      simp only [List.mem_cons, not_or] at h
      simp [indexOfC, Ne.symm h.1, ih h.2]

theorem take_append_cons (t : List Char) (c : Char) (X : List Char) :
    (t ++ c :: X).take t.length = t :=
  List.take_left t (c :: X)

theorem drop_append_cons (t : List Char) (c : Char) (X : List Char) :
    (t ++ c :: X).drop (t.length + 1) = X := by
  have : t ++ c :: X = (t ++ [c]) ++ X := by simp
  rw [this, show t.length + 1 = (t ++ [c]).length by simp, List.drop_left]

theorem readStages_render :
    ∀ (ps : List (List Char × List Char)) (fuel : Nat) (acc : List Stage),
      ps ≠ [] → ps.length ≤ fuel → (∀ p ∈ ps, goodTok p) →
      readStages fuel (renderStages ps) acc = some (acc ++ ps.map stageOfToks) := by
  intro ps
  induction ps with
  | nil => intro fuel acc h; exact absurd rfl h
  | cons p ps ih =>
      intro fuel acc _ hlen hgood
      obtain ⟨f, rfl⟩ : ∃ f, fuel = f + 1 := by
        cases fuel with
        | zero => simp at hlen
        | succ f => exact ⟨f, rfl⟩
      obtain ⟨hp1, hp2, hp3, hp4⟩ := hgood p (by simp)
      cases ps with
      | nil =>
          show readStages (f + 1) (renderStage p) acc = _
          rw [renderStage]
          simp only [readStages, indexOfC_append_cons hp1, take_append_cons,
            drop_append_cons, indexOfC_eq_none hp4]
          simp [stageOfToks]
      | cons q qs =>
          show readStages (f + 1) (renderStage p ++ ',' :: renderStages (q :: qs)) acc = _
          have hassoc : renderStage p ++ ',' :: renderStages (q :: qs)
              = p.1 ++ ' ' :: (p.2 ++ ',' :: renderStages (q :: qs)) := by
            simp [renderStage]
          rw [hassoc]
          simp only [readStages, indexOfC_append_cons hp1, take_append_cons,
            drop_append_cons, indexOfC_append_cons hp4]
          exact (ih f _ (by simp) (by simpa using hlen)
            (fun r hr => hgood r (by simp [hr]))).trans (by simp [stageOfToks])

theorem readStages_render_overflow :
    ∀ (fuel : Nat) (ps : List (List Char × List Char)) (acc : List Stage),
      fuel < ps.length → (∀ p ∈ ps, goodTok p) →
      readStages fuel (renderStages ps) acc = none := by
  intro fuel
  induction fuel with
  | zero => intro ps acc _ _; rfl
  | succ f ih =>
      intro ps acc hlen hgood
      obtain ⟨p, q, qs, rfl⟩ : ∃ p q qs, ps = p :: q :: qs := by
        match ps, hlen with
        | p :: q :: qs, _ => exact ⟨p, q, qs, rfl⟩
      obtain ⟨hp1, hp2, hp3, hp4⟩ := hgood p (by simp)
      have hassoc : renderStages (p :: q :: qs)
          = p.1 ++ ' ' :: (p.2 ++ ',' :: renderStages (q :: qs)) := by
        simp [renderStages, renderStage]
      rw [hassoc]
      simp only [readStages, indexOfC_append_cons hp1, take_append_cons,
        drop_append_cons, indexOfC_append_cons hp4]
      exact ih (q :: qs) _ (by simpa using hlen) (fun r hr => hgood r (by simp [hr]))

theorem execStages_eq :
    ∀ (stages : List Stage) (evs : List MotorEvent) (dye : ℚ),
      stages.foldl (fun acc st => (acc.1 ++ execStage st, acc.2 + stageVolume st)) (evs, dye)
        = (evs ++ (stages.map execStage).flatten, dye + (stages.map stageVolume).sum) := by
  intro stages
  induction stages with
  | nil => intro evs dye; simp
  | cons s rest ih =>
      intro evs dye
      simp only [List.foldl_cons, ih, List.map_cons, List.flatten_cons, List.sum_cons]
      simp [List.append_assoc, add_assoc]

theorem digitsVal_of_no_digit {s : List Char} (h : ∀ c ∈ s, ¬ c.isDigit) (acc : Nat) :
    digitsVal s acc = acc := by
  cases s with
  | nil => rfl
  | cons c rest => simp [digitsVal, h c (by simp)]

theorem toIntLegacy_of_no_digit {s : List Char} (h : ∀ c ∈ s, ¬ c.isDigit) :
    toIntLegacy s = 0 := by
  have hmem : ∀ c ∈ s.dropWhile isSpaceChar, c ∈ s :=
    fun c hc => (List.dropWhile_sublist isSpaceChar).mem hc
  show ((match s.dropWhile isSpaceChar with
    | '-' :: rest => -(digitsVal rest 0 : Int)
    | '+' :: rest => (digitsVal rest 0 : Int)
    | _ => (digitsVal (s.dropWhile isSpaceChar) 0 : Int) : Int)) = 0
  split
  · rename_i rest heq
    have hr : ∀ c ∈ rest, ¬ c.isDigit := fun c hc => h c (hmem c (heq ▸ List.mem_cons_of_mem _ hc))
    simp [digitsVal_of_no_digit hr]
  · rename_i rest heq
    have hr : ∀ c ∈ rest, ¬ c.isDigit := fun c hc => h c (hmem c (heq ▸ List.mem_cons_of_mem _ hc))
    simp [digitsVal_of_no_digit hr]
  · have hr : ∀ c ∈ s.dropWhile isSpaceChar, ¬ c.isDigit := fun c hc => h c (hmem c hc)
    simp [digitsVal_of_no_digit hr]

theorem indexOfC_of_mem {c : Char} :
    ∀ {s : List Char}, c ∈ s →
      ∃ i, indexOfC c s = some i ∧ s.take i = s.takeWhile (· ≠ c) := by
  intro s
  induction s with
  | nil => intro h; simp at h
  | cons x xs ih =>
      intro h
      by_cases hx : x = c
      · subst hx
        exact ⟨0, by simp [indexOfC], by simp [List.takeWhile]⟩
      · have hc : c ∈ xs := by
          rcases List.mem_cons.mp h with h1 | h1
          · exact absurd h1.symm hx
          · exact h1
        obtain ⟨i, h1, h2⟩ := ih hc
        refine ⟨i + 1, by simp [indexOfC, hx, h1], ?_⟩
        simp [List.takeWhile, hx, h2]

theorem trimAtNewline_of_mem {s : List Char} (h : '\n' ∈ s) :
    trimAtNewline s = s.takeWhile (· ≠ '\n') := by
  obtain ⟨i, h1, h2⟩ := indexOfC_of_mem h
  rw [trimAtNewline, h1]
  exact h2

theorem feedAll_general :
    ∀ (bs buf : List Char), buf.length ≤ commandFromComputerMaxLength →
      feedAll buf bs = (buf ++ bs).drop (buf.length + bs.length - commandFromComputerMaxLength) := by
  intro bs
  induction bs with
  | nil =>
      intro buf hb
      have hz : buf.length - commandFromComputerMaxLength = 0 := by omega
      simp [feedAll, hz]
  | cons c bs ih =>
      intro buf hb
      show feedAll (feedByte buf c) bs = _
      by_cases h : buf.length < commandFromComputerMaxLength
      · rw [show feedByte buf c = buf ++ [c] from if_pos h]
        rw [ih (buf ++ [c]) (by simp; omega)]
        have harith : (buf ++ [c]).length + bs.length - commandFromComputerMaxLength
            = buf.length + (c :: bs).length - commandFromComputerMaxLength := by simp; omega
        rw [harith, List.append_assoc]
        rfl
      · have hlen : buf.length = commandFromComputerMaxLength := by omega
        rw [show feedByte buf c = buf.drop 1 ++ [c] from if_neg h]
        obtain ⟨a, buf2, rfl⟩ : ∃ a buf2, buf = a :: buf2 := by
          cases buf with
          | nil => simp [commandFromComputerMaxLength] at hlen
          | cons a buf2 => exact ⟨a, buf2, rfl⟩
        simp only [List.drop_succ_cons, List.drop_zero]
        rw [ih (buf2 ++ [c]) (by simp at hlen ⊢; omega)]
        have h1 : (a :: buf2).length + (c :: bs).length - commandFromComputerMaxLength
            = bs.length + 1 := by simp at hlen ⊢; omega
        have h2 : (buf2 ++ [c]).length + bs.length - commandFromComputerMaxLength
            = bs.length := by simp at hlen ⊢; omega
        rw [h1, h2, List.append_assoc, List.singleton_append, List.cons_append,
          List.drop_succ_cons]

theorem startsWithInject_append (r : List Char) :
    startsWithInject ("Inject: ".toList ++ r) = true := by
  have hlen8 : ("Inject: ".toList : List Char).length = 8 := rfl
  have ht := List.take_left "Inject: ".toList r
  rw [hlen8] at ht
  unfold startsWithInject
  rw [ht]
  simp

theorem processInject_append (r : List Char) :
    processInjectCommand ("Inject: ".toList ++ r) = readStages maxInjectionStages r [] := by
  have hlen8 : ("Inject: ".toList : List Char).length = 8 := rfl
  have hd := List.drop_left "Inject: ".toList r
  rw [hlen8] at hd
  unfold processInjectCommand
  simp only [startsWithInject_append, eq_self_iff_true, if_true]
  rw [hd]

theorem dispatchLine_inject (line : List Char) (st : DeviceState)
    (h : startsWithInject line = true) :
    dispatchLine line st =
      match processInjectCommand line with
      | none => ([.msg "Invalid\n"], [], st)
      | some stages =>
          let r := execStages stages st.dyeInjected
          ([.msg "Executing\n"], r.1, ⟨r.2⟩) := by
  have hline : line = "Inject: ".toList ++ line.drop 8 := by
    conv_lhs => rw [← List.take_append_drop 8 line]
    rw [show line.take 8 = "Inject: ".toList by simpa [startsWithInject] using h]
  rw [hline]
  rfl

theorem dispatchLine_inject_some (line : List Char) (st : DeviceState) (stages : List Stage)
    (h : startsWithInject line = true) (hp : processInjectCommand line = some stages) :
    dispatchLine line st =
      ([.msg "Executing\n"], (execStages stages st.dyeInjected).1,
       ⟨(execStages stages st.dyeInjected).2⟩) := by
  rw [dispatchLine_inject line st h, hp]

theorem dispatchLine_inject_none (line : List Char) (st : DeviceState)
    (h : startsWithInject line = true) (hp : processInjectCommand line = none) :
    dispatchLine line st = ([.msg "Invalid\n"], [], st) := by
  rw [dispatchLine_inject line st h, hp]

theorem dispatchLine_invalid (line : List Char) (st : DeviceState)
    (h1 : line ≠ "Status?".toList) (h2 : line ≠ "Program?".toList)
    (h3 : line ≠ "Version?".toList) (h4 : line ≠ "DyeInjected?".toList)
    (h5 : line ≠ "ResetDyeInjected".toList) (h6 : line ≠ "StepsPerRevolution?".toList)
    (h7 : line ≠ "VolumePerRevolution?".toList) (h8 : startsWithInject line = false) :
    dispatchLine line st = ([.msg "Invalid\n"], [], st) := by
  unfold dispatchLine
  rw [if_neg h1, if_neg h2, if_neg h3, if_neg h4, if_neg h5, if_neg h6, if_neg h7,
    if_neg (by simp [h8])]

theorem execStages_spec (stages : List Stage) (dye : ℚ) :
    execStages stages dye = ((stages.map execStage).flatten, dye + (stages.map stageVolume).sum) := by
  have h := execStages_eq stages [] dye
  simpa [execStages] using h

/-- C1: dispatching a well-formed Inject command with N stages (1 ≤ N ≤ 4) responds
"Executing", sends the motor adapter one ordered (setSpeed, step, release) triple per
stage in stage order, and changes dyeInjected by the sum over stages of
steps * volumePerRevolution / stepsPerRevolution. -/
theorem inject_executes_stages_in_order (toks : List (List Char × List Char))
    (st : DeviceState) (h1 : 1 ≤ toks.length) (h2 : toks.length ≤ maxInjectionStages)
    (h3 : ∀ p ∈ toks, goodTok p) :
    dispatchLine ("Inject: ".toList ++ renderStages toks) st =
      ([.msg "Executing\n"],
       ((toks.map stageOfToks).map execStage).flatten,
       ⟨st.dyeInjected + ((toks.map stageOfToks).map stageVolume).sum⟩) := by
  have hne : toks ≠ [] := by intro h; subst h; simp at h1
  have hp : processInjectCommand ("Inject: ".toList ++ renderStages toks)
      = some (toks.map stageOfToks) := by
    rw [processInject_append]
    simpa using readStages_render toks maxInjectionStages [] hne h2 h3
  rw [dispatchLine_inject_some _ _ _ (startsWithInject_append _) hp]
  simp [execStages_spec]

theorem inject_executes_stages_in_order_witness :
    dispatchLine ("Inject: ".toList
        ++ renderStages [("200".toList, "60".toList), ("-100".toList, "30".toList)]) ⟨0⟩
      = ([.msg "Executing\n"],
         [.setSpeed 60, .step 200 .forward, .release, .setSpeed 30, .step 100 .backward, .release],
         ⟨1875 / 10547⟩) := by
  have h := inject_executes_stages_in_order
    [("200".toList, "60".toList), ("-100".toList, "30".toList)] ⟨0⟩
    (by decide) (by decide) (by decide)
  refine h.trans ?_
  have h200 : stageOfToks ("200".toList, "60".toList) = ⟨200, 60⟩ := by decide
  have h100 : stageOfToks ("-100".toList, "30".toList) = ⟨-100, 30⟩ := by decide
  have e1 : execStage ⟨200, 60⟩ = [.setSpeed 60, .step 200 .forward, .release] := by decide
  have e2 : execStage ⟨-100, 30⟩ = [.setSpeed 30, .step 100 .backward, .release] := by decide
  have v1 : stageVolume ⟨200, 60⟩ = 3750 / 10547 := by
    norm_num [stageVolume, volumePerRevolution, stepsPerRevolution]
  have v2 : stageVolume ⟨-100, 30⟩ = -1875 / 10547 := by
    norm_num [stageVolume, volumePerRevolution, stepsPerRevolution]
  simp only [List.map_cons, List.map_nil, h200, h100, e1, e2, v1, v2,
    List.flatten_cons, List.flatten_nil, List.sum_cons, List.sum_nil, List.append_nil,
    List.cons_append, List.nil_append]
  norm_num

/-- C2 counterexample: the line "Inject: " with an empty stage list is NOT rejected:
the parser returns 0 stages (not -1) and the dispatcher responds "Executing". -/
theorem inject_empty_stages_responds_executing :
    processInjectCommand "Inject: ".toList = some []
    ∧ dispatchLine "Inject: ".toList ⟨0⟩ = ([.msg "Executing\n"], [], ⟨0⟩)
    ∧ dispatchLine "Inject: ".toList ⟨0⟩ ≠ ([.msg "Invalid\n"], [], ⟨0⟩) := by
  refine ⟨rfl, rfl, ?_⟩
  decide

/-- C2 amended: "Inject: " with an empty stage list is a valid zero-stage command:
the dispatcher responds "Executing", makes no motor call and leaves the state unchanged. -/
theorem inject_empty_stages_valid_zero_stages :
    ∀ st : DeviceState, dispatchLine "Inject: ".toList st = ([.msg "Executing\n"], [], st) :=
  fun _ => rfl

/-- C3: an Inject command with 5 or more stages is wholly invalid: response "Invalid",
no "Executing", no motor call, state unchanged. -/
theorem fifth_stage_makes_command_invalid (toks : List (List Char × List Char))
    (st : DeviceState) (h1 : 5 ≤ toks.length) (h3 : ∀ p ∈ toks, goodTok p) :
    dispatchLine ("Inject: ".toList ++ renderStages toks) st = ([.msg "Invalid\n"], [], st) := by
  have hp : processInjectCommand ("Inject: ".toList ++ renderStages toks) = none := by
    rw [processInject_append]
    exact readStages_render_overflow maxInjectionStages toks []
      (by simp only [maxInjectionStages]; omega) h3
  exact dispatchLine_inject_none _ _ (startsWithInject_append _) hp

theorem fifth_stage_makes_command_invalid_witness :
    dispatchLine ("Inject: ".toList
        ++ renderStages [("1".toList, "2".toList), ("3".toList, "4".toList),
          ("5".toList, "6".toList), ("7".toList, "8".toList), ("9".toList, "10".toList)]) ⟨0⟩
      = ([.msg "Invalid\n"], [], ⟨0⟩) :=
  fifth_stage_makes_command_invalid _ _ (by decide) (by decide)

/-- C4 counterexample: a negative speed numeral does not parse as 0: "-30" becomes
65506 = 2^16 - 30 under the cast of toInt's long result to the 16-bit unsigned int. -/
theorem negative_speed_token_not_zero :
    processInjectCommand "Inject: 100 -30".toList = some [⟨100, 65506⟩]
    ∧ processInjectCommand "Inject: 100 -30".toList ≠ some [⟨100, 0⟩] := by
  constructor
  · decide
  · decide

/-- C4 amended: a stage whose speed token is a negative numeral of value -k
(0 < k < 2^16) still parses, and the speed becomes 2^16 - k (not 0). -/
theorem negative_speed_token_wraps_modulo (t u : List Char) (k : Nat)
    (hg : goodTok (t, u)) (hu : toIntLegacy u = -(k : Int))
    (hk0 : 0 < k) (hk1 : k < 65536) :
    processInjectCommand ("Inject: ".toList ++ renderStage (t, u))
      = some [⟨toInt16 (toIntLegacy t), 65536 - k⟩] ∧ 65536 - k ≠ 0 := by
  have hs : toUInt16 (-(k : Int)) = 65536 - k := by
    unfold toUInt16
    omega
  constructor
  · have hgs : ∀ p ∈ [(t, u)], goodTok p := by
      intro p hp
      rw [List.mem_singleton] at hp
      rw [hp]
      exact hg
    have h := readStages_render [(t, u)] maxInjectionStages [] (by simp)
      (by simp [maxInjectionStages]) hgs
    have hst : stageOfToks (t, u) = ⟨toInt16 (toIntLegacy t), 65536 - k⟩ := by
      show Stage.mk (toInt16 (toIntLegacy t)) (toUInt16 (toIntLegacy u)) = _
      rw [hu, hs]
    rw [show renderStage (t, u) = renderStages [(t, u)] from rfl, processInject_append, h]
    simp [hst]
  · omega

theorem negative_speed_token_wraps_modulo_witness :
    processInjectCommand ("Inject: ".toList ++ renderStage ("100".toList, "-30".toList))
      = some [⟨100, 65506⟩] ∧ (65506 : Nat) ≠ 0 := by
  have h := negative_speed_token_wraps_modulo "100".toList "-30".toList 30
    (by decide) (by decide) (by decide) (by decide)
  exact ⟨h.1.trans (by decide), by decide⟩

/-- C5: the line buffer never exceeds its capacity of 256 characters; at capacity the
oldest character is evicted before the new byte is appended; after receiving a
sequence of at least 256 bytes, the buffer holds exactly the last 256 in receipt order. -/
theorem line_buffer_sliding_window :
    (∀ (buf : List Char) (c : Char), buf.length ≤ commandFromComputerMaxLength →
      (feedByte buf c).length ≤ commandFromComputerMaxLength)
    ∧ (∀ (buf : List Char) (c : Char), buf.length = commandFromComputerMaxLength →
      feedByte buf c = buf.drop 1 ++ [c])
    ∧ (∀ bs : List Char, commandFromComputerMaxLength ≤ bs.length →
      feedAll [] bs = bs.drop (bs.length - commandFromComputerMaxLength)) := by
  refine ⟨?_, ?_, ?_⟩
  · intro buf c hb
    unfold feedByte
    by_cases h : buf.length < commandFromComputerMaxLength
    · rw [if_pos h]
      simp only [List.length_append, List.length_cons, List.length_nil]
      omega
    · rw [if_neg h]
      simp only [List.length_append, List.length_drop, List.length_cons, List.length_nil]
      simp only [commandFromComputerMaxLength] at h hb ⊢
      omega
  · intro buf c hb
    unfold feedByte
    rw [if_neg (by omega)]
  · intro bs hb
    have h := feedAll_general bs [] (by simp)
    simp only [List.nil_append, List.length_nil, Nat.zero_add] at h
    exact h

theorem line_buffer_sliding_window_witness :
    feedAll [] (List.replicate 300 'a')
      = (List.replicate 300 'a').drop ((List.replicate 300 'a').length
          - commandFromComputerMaxLength) :=
  line_buffer_sliding_window.2.2 (List.replicate 300 'a')
    (by rw [List.length_replicate]; decide)

/-- C6: dispatching "ResetDyeInjected" from any prior state sets dyeInjected to
exactly 0 and responds "ACK". -/
theorem resetDyeInjected_zeroes_counter_and_acks :
    ∀ st : DeviceState, dispatchLine "ResetDyeInjected".toList st = ([.msg "ACK\n"], [], ⟨0⟩) :=
  fun _ => rfl

/-- C7: a completed line matching no recognized command exactly and not starting with
"Inject: " gets the response "Invalid", mutates nothing, and leaves the buffer
cleared, ready for the next line. -/
theorem unrecognized_command_responds_invalid (buf : List Char) (st : DeviceState)
    (h1 : trimAtNewline buf ≠ "Status?".toList)
    (h2 : trimAtNewline buf ≠ "Program?".toList)
    (h3 : trimAtNewline buf ≠ "Version?".toList)
    (h4 : trimAtNewline buf ≠ "DyeInjected?".toList)
    (h5 : trimAtNewline buf ≠ "ResetDyeInjected".toList)
    (h6 : trimAtNewline buf ≠ "StepsPerRevolution?".toList)
    (h7 : trimAtNewline buf ≠ "VolumePerRevolution?".toList)
    (h8 : startsWithInject (trimAtNewline buf) = false) :
    processComplete buf st = ([.msg "Invalid\n"], [], st, []) := by
  unfold processComplete
  rw [dispatchLine_invalid _ _ h1 h2 h3 h4 h5 h6 h7 h8]

theorem unrecognized_command_responds_invalid_witness :
    processComplete "Foo\n".toList ⟨0⟩ = ([.msg "Invalid\n"], [], ⟨0⟩, []) :=
  unrecognized_command_responds_invalid _ _ (by decide) (by decide) (by decide)
    (by decide) (by decide) (by decide) (by decide) (by decide)

/-- C8: non-numeric steps or speed tokens do not make the command invalid: a
well-formed stage list still parses, and any stage token without digits yields the
value 0 under the legacy string-to-integer conversion. -/
theorem nonnumeric_tokens_parse_as_zero (toks : List (List Char × List Char))
    (h1 : toks ≠ []) (h2 : toks.length ≤ maxInjectionStages) (h3 : ∀ p ∈ toks, goodTok p) :
    processInjectCommand ("Inject: ".toList ++ renderStages toks) = some (toks.map stageOfToks)
    ∧ ∀ p ∈ toks, ((∀ c ∈ p.1, ¬ c.isDigit) → (stageOfToks p).steps = 0)
        ∧ ((∀ c ∈ p.2, ¬ c.isDigit) → (stageOfToks p).speed = 0) := by
  constructor
  · rw [processInject_append]
    simpa using readStages_render toks maxInjectionStages [] h1 h2 h3
  · intro p _
    constructor
    · intro hnd
      simp [stageOfToks, toIntLegacy_of_no_digit hnd, toInt16]
    · intro hnd
      simp [stageOfToks, toIntLegacy_of_no_digit hnd, toUInt16]

theorem nonnumeric_tokens_parse_as_zero_witness :
    processInjectCommand ("Inject: ".toList ++ renderStages [("abc".toList, "60".toList)])
      = some [⟨0, 60⟩] := by
  have h := nonnumeric_tokens_parse_as_zero [("abc".toList, "60".toList)]
    (by decide) (by decide) (by decide)
  exact h.1.trans (by decide)

/-- C9: the six query commands leave the device state unchanged and produce their
fixed responses; in particular any number of repeated "Status?" dispatches returns
"OK" each time and never changes dyeInjected. -/
theorem query_commands_preserve_state :
    (∀ st : DeviceState, dispatchLine "Status?".toList st = ([.msg "OK\n"], [], st))
    ∧ (∀ st : DeviceState, dispatchLine "Program?".toList st = ([.msg "Dye Injector\n"], [], st))
    ∧ (∀ st : DeviceState,
        dispatchLine "Version?".toList st = ([.msg (versionString ++ "\n")], [], st))
    ∧ (∀ st : DeviceState, dispatchLine "StepsPerRevolution?".toList st
        = ([.msg (toString stepsPerRevolution ++ "\n")], [], st))
    ∧ (∀ st : DeviceState, dispatchLine "VolumePerRevolution?".toList st
        = ([.floatMsg volumePerRevolution], [], st))
    ∧ (∀ st : DeviceState,
        dispatchLine "DyeInjected?".toList st = ([.floatMsg st.dyeInjected], [], st))
    ∧ (∀ (n : Nat) (st : DeviceState),
        (fun s => (dispatchLine "Status?".toList s).2.2)^[n] st = st) :=
  ⟨fun _ => rfl, fun _ => rfl, fun _ => rfl, fun _ => rfl, fun _ => rfl, fun _ => rfl,
   fun n _ => Function.iterate_fixed rfl n⟩

/-- C10: when a completed command is processed, exactly the buffer text strictly
before the first newline is dispatched, and the whole buffer is cleared afterwards. -/
theorem dispatch_uses_text_before_first_newline (buf : List Char) (st : DeviceState)
    (h : '\n' ∈ buf) :
    processComplete buf st =
      ((dispatchLine (buf.takeWhile (· ≠ '\n')) st).1,
       (dispatchLine (buf.takeWhile (· ≠ '\n')) st).2.1,
       (dispatchLine (buf.takeWhile (· ≠ '\n')) st).2.2, []) := by
  unfold processComplete
  rw [trimAtNewline_of_mem h]

theorem dispatch_uses_text_before_first_newline_witness :
    processComplete "Status?\nResetDyeInjected\n".toList ⟨0⟩ = ([.msg "OK\n"], [], ⟨0⟩, []) := by
  have h := dispatch_uses_text_before_first_newline "Status?\nResetDyeInjected\n".toList ⟨0⟩
    (by decide)
  exact h.trans (by decide)

end DyeInjector
